import Mathlib

/-!
Verification of the buffer-management and flow-control loop of `src/zenc.c`,
the command-line driver that pumps an input byte stream through the external
slz streaming compressor (`slz.h` / `slz.c`, which are not part of this
repository's sources) and flushes a staging buffer to standard output.

The whole of `main` (zenc.c:101-275) after argument parsing is embedded here:
buffer sizing (lines 201-212), input-size resolution (lines 219-225), the
per-pass do/while encode loop (lines 233-262), finalization and the final
flush (lines 264-268), the summary line (lines 270-272) and the exit status
(line 274).

Modelling conventions:
* Bytes are naturals; the loop never inspects byte values.
* The external encoder is a record of pure functions over an abstract session
  type, following the spec's capability interface `init(effort, framing)`,
  `encode(session, chunk, more)`, `finish(session)` plus the `crc32` field
  that the summary line reads.
* The input source and the `toread` cursor: the driver resolves `toread` to
  the fstat size of the source (or a `-b` cap not exceeding it), so the bytes
  the cursor will still deliver are carried directly as the list `rest`, and
  the C variable `toread` is `rest.length`.  `read(fd, buffer, count)` with
  `count <= toread` then always returns exactly `count` bytes.
* `write(2)` results are supplied by an oracle `w : Nat -> Int` giving the
  return value of the k-th `write` call of the run, so that failing and
  partially-succeeding writes can be analysed.
* Ghost instrumentation (never read by the translated control flow):
  `maxFill` records the high-water mark of the staging-buffer fill `outblen`,
  `reqs` records each read request as `(toread, count, more)`, and `wcalls`
  counts `write` calls.
-/

namespace Zenc

/-- Bytes of the input and output streams. -/
abbrev Byte := Nat

/-- Output wire framing selected by `-D`/`-G`/`-Z` (`SLZ_FMT_DEFLATE`,
`SLZ_FMT_GZIP`, `SLZ_FMT_ZLIB` from slz.h, which is outside this
repository's sources; only their distinctness matters to the driver). -/
inductive SlzFmt where
  | deflate
  | gzip
  | zlib
deriving DecidableEq

/-- Interface of the external slz encoder.  Modelled from the spec: slz.c is
not part of this repository's sources; the spec describes the collaborator as
`init(effort, framing) -> Session`, `encode(Session, chunk, isFinal) ->
bytes`, `finish(Session) -> bytes`, each advancing opaque session state.
Argument order follows the call sites in zenc.c: `init` receives `!!level`
and the format, `encode` receives the chunk and the `more` flag (the negation
of "is final"), `finish` emits the trailer, and `crc32` is the session field
read by the summary line (zenc.c:272). -/
structure Slz (σ : Type) where
  init : Bool → SlzFmt → σ
  encode : σ → List Byte → Bool → σ × List Byte
  finish : σ → σ × List Byte
  crc32 : σ → Nat

/-- Input block size, zenc.c:201-205:
`block_size = 32768; if (level > 1) block_size *= 4; if (level > 2)
block_size *= 8;`. -/
def block_size (level : Nat) : Nat :=
  let bs := 32768
  let bs := if level > 1 then bs * 4 else bs
  let bs := if level > 2 then bs * 8 else bs
  bs

/-- Staging-buffer size used by the flush check, zenc.c:207:
`outbsize = 2 * block_size`. -/
def outbsize (level : Nat) : Nat := 2 * block_size level

/-- Allocated staging-buffer capacity, zenc.c:208:
`outbuf = calloc(1, outbsize + 4096)`. -/
def outbufCap (level : Nat) : Nat := outbsize level + 4096

/-- Resolution of the number of bytes to consume, zenc.c:219-225: a negative
cap (the `-b` argument as parsed by `atoll`, default `-1`) is replaced by the
`fstat` size of the input. -/
def resolveToread (cap : Int) (st_size : Nat) : Nat :=
  if cap < 0 then st_size else cap.toNat

/-- Run state of `main`, carried across chunks and passes.  `rest` is the
byte suffix the input cursor will still deliver, so the C variable `toread`
is `rest.length`; `outbuf` holds the currently staged bytes, so the C
variable `outblen` is `outbuf.length`; `totin`, `totout` and `error` are the
variables of the same names; `written` is the byte stream delivered to
standard output.  `wcalls`, `maxFill` and `reqs` are ghost instrumentation
(see the file comment) that no translated control flow reads. -/
structure Acc where
  rest : List Byte
  outbuf : List Byte
  totin : Nat
  totout : Nat
  error : Bool
  written : List Byte
  wcalls : Nat
  maxFill : Nat
  reqs : List (Nat × Nat × Bool)
deriving DecidableEq

/-- Staging-buffer fill level, the C variable `outblen`. -/
def outblen (a : Acc) : Nat := a.outbuf.length

/-- Initial state at the top of the pass loop, zenc.c:108-122: `toread`
already resolved, all accumulators zero. -/
def Acc.init (input : List Byte) : Acc :=
  { rest := input, outbuf := [], totin := 0, totout := 0, error := false,
    written := [], wcalls := 0, maxFill := 0, reqs := [] }

/-- One conditional output write, zenc.c:256-258 and 266-268:
`if (console && !test && !error) if (write(1, outbuf, outblen) < 0)
error = 1;`.  A result `r >= 0` delivers the first `r` staged bytes to
standard output (a short write is not retried); only `r < 0` sets the sticky
error flag. -/
def doWrite (console test : Bool) (w : Nat → Int) (a : Acc) : Acc :=
  if console && !test && !a.error then
    let r := w a.wcalls
    { a with error := if r < 0 then true else a.error,
             written := a.written ++ a.outbuf.take r.toNat,
             wcalls := a.wcalls + 1 }
  else a

/-- Body of the in-loop flush, zenc.c:255-261: write the staged region, then
`totout += outblen; outblen = 0;` (the accounting happens whether or not the
write was performed or succeeded). -/
def flushStep (console test : Bool) (w : Nat → Int) (a : Acc) : Acc :=
  let a1 := doWrite console test w a
  { a1 with totout := a1.totout + outblen a1, outbuf := [] }

/-- Per-iteration request computation, zenc.c:239-242:
`if (toread < (uint32_t)block_size) { count = (size_t)toread; more = 0; }`.
`count` is the value carried from the previous iteration and `more` enters
every iteration as 1 (it is only ever cleared here, which also ends the
loop), so the returned pair is the `(count, more)` used by the iteration. -/
def reqPlan (toread bs count : Nat) : Nat × Bool :=
  if toread < bs then (toread, false) else (count, true)

/-- One iteration of the do/while body, zenc.c:239-261, for the resolved
`(count, more)` request: read the next `count` bytes (zenc.c:244-251, which
also advances `toread`/`totin`), encode them appending to the staging buffer
(zenc.c:253), then flush if fewer than `block_size` bytes of room remain
before `outbsize` (zenc.c:254-261).  Returns the advanced session state and
run state. -/
def chunkStep (enc : Slz σ) (level : Nat) (console test : Bool)
    (w : Nat → Int) (count : Nat) (more : Bool) (s : σ) (a : Acc) :
    σ × Acc :=
  let chunk := a.rest.take count
  let ret := chunk.length
  let a1 : Acc :=
    { a with rest := a.rest.drop ret, totin := a.totin + ret,
             reqs := a.reqs ++ [(a.rest.length, count, more)] }
  let eo := enc.encode s chunk more
  let a2 : Acc :=
    { a1 with outbuf := a1.outbuf ++ eo.2,
              maxFill := max a1.maxFill (outblen a1 + eo.2.length) }
  let a3 := if outblen a2 + block_size level > outbsize level
            then flushStep console test w a2
            else a2
  (eo.1, a3)

/-- The do/while loop of zenc.c:238-262, phrased with structural recursion.
Each iteration first runs zenc.c:239-242 (`reqPlan`, with the carried `count`
equal to `block_size` since `count` is only reassigned in the iteration that
also clears `more`), then the body (`chunkStep`), and repeats while `more`
is set.  Every iteration with `more` set consumes exactly `block_size` bytes
of `rest`, so the loop performs exactly `rest.length / block_size` such
iterations before the final one; the fuel argument counts them.  The theorem
`passLoopGo_body` below re-states the resulting loop equation. -/
def passLoopGo (enc : Slz σ) (level : Nat) (console test : Bool)
    (w : Nat → Int) : Nat → σ → Acc → σ × Acc
  | 0, s, a =>
      chunkStep enc level console test w
        (reqPlan a.rest.length (block_size level) (block_size level)).1
        (reqPlan a.rest.length (block_size level) (block_size level)).2 s a
  | n + 1, s, a =>
      let p := reqPlan a.rest.length (block_size level) (block_size level)
      let r := chunkStep enc level console test w p.1 p.2 s a
      if p.2 then passLoopGo enc level console test w n r.1 r.2 else r

/-- The do/while loop of zenc.c:238-262 from its entry point: the carried
`count` starts at `block_size` and `more` at 1 (zenc.c:235-236). -/
def passLoop (enc : Slz σ) (level : Nat) (console test : Bool)
    (w : Nat → Int) (s : σ) (a : Acc) : σ × Acc :=
  passLoopGo enc level console test w
    (a.rest.length / block_size level) s a

/-- Finalization of one pass, zenc.c:264-268:
`outblen += slz_finish(&strm, outbuf + outblen); totout += outblen;` and the
unconditional final flush (whose bytes are not subject to the capacity check
and whose fill is not reset afterwards — the next pass's `outblen = 0` does
that). -/
def passFinish (enc : Slz σ) (console test : Bool) (w : Nat → Int)
    (s : σ) (a : Acc) : σ × Acc :=
  let fo := enc.finish s
  let a1 : Acc :=
    { a with outbuf := a.outbuf ++ fo.2,
             maxFill := max a.maxFill (outblen a + fo.2.length) }
  let a2 : Acc := { a1 with totout := a1.totout + outblen a1 }
  (fo.1, doWrite console test w a2)

/-- One pass of the outer loop body, zenc.c:234-268:
`slz_init(&strm, !!level, format)`, reset `outblen`, run the do/while loop,
then finalize (`passFinish`). -/
def pass (enc : Slz σ) (level : Nat) (fmt : SlzFmt) (console test : Bool)
    (w : Nat → Int) (a : Acc) : σ × Acc :=
  let s0 := enc.init (decide (level ≠ 0)) fmt
  let r := passLoop enc level console test w s0 { a with outbuf := [] }
  passFinish enc console test w r.1 r.2

/-- The outer `while (loops--)` loop, zenc.c:233-269.  `strm` is a single
stack variable reused by every pass; before the first pass it has never been
written (zenc.c:105 declares it uninitialized), which the `Option` models:
`none` until some pass has run `slz_init`. -/
def runLoops (enc : Slz σ) (level : Nat) (fmt : SlzFmt)
    (console test : Bool) (w : Nat → Int) :
    Nat → Option σ → Acc → Option σ × Acc
  | 0, s?, a => (s?, a)
  | n + 1, _, a =>
      let r := pass enc level fmt console test w a
      runLoops enc level fmt console test w n (some r.1) r.2

/-- A whole run of the encode part of `main`: `loops` passes over a source
whose cursor starts with exactly the `input` bytes still to deliver. -/
def run (enc : Slz σ) (level : Nat) (fmt : SlzFmt) (console test : Bool)
    (w : Nat → Int) (loops : Nat) (input : List Byte) : Option σ × Acc :=
  runLoops enc level fmt console test w loops none (Acc.init input)

/-- Exit status of the process, zenc.c:274: `return error;`. -/
def exitCode (a : Acc) : Nat := if a.error then 1 else 0

/-- Equality of the encoder-and-accounting portion of two run states:
everything except the write-side fields (`error`, `written`, `wcalls`).  The
write-side fields are the only ones `doWrite` touches, and no translated
control flow reads them except `doWrite`'s own sticky-error guard, so runs
differing only in write results or test mode stay `CoreEq`-related. -/
def CoreEq (a b : Acc) : Prop :=
  a.rest = b.rest ∧ a.outbuf = b.outbuf ∧ a.totin = b.totin ∧
  a.totout = b.totout ∧ a.maxFill = b.maxFill ∧ a.reqs = b.reqs

/-- Write-side invariant of a run against the write oracle `w`: the sticky
error flag is set exactly when the last performed write failed, and every
write call but the last one succeeded — i.e. after the first failing write
no further write call is made. -/
def WInv (w : Nat → Int) (a : Acc) : Prop :=
  (a.error = true ↔ ∃ k, k < a.wcalls ∧ w k < 0) ∧
  (∀ k, k + 1 < a.wcalls → 0 ≤ w k)

/-- Ratio field of the verbose summary line, zenc.c:270-272:
`totout * 100.0 / totin`, computed unconditionally (the C code uses a
`double` division; it is rendered over `ℚ` here since only the presence or
absence of a zero-divisor guard is at stake).  A `none` result would model a
special-cased "undefined" report; the source never produces one. -/
def reportRatio (totin totout : Nat) : Option ℚ :=
  some ((totout * 100 : ℚ) / (totin : ℚ))

/-- The guarded ratio computation described by the spec sentence "ratio is
undefined/must be guarded when total input is zero", stated in the spec's
words for comparison with `reportRatio`: report undefined (`none`) when the
total input is zero. -/
def reportRatioGuarded (totin totout : Nat) : Option ℚ :=
  if totin = 0 then none else some ((totout * 100 : ℚ) / (totin : ℚ))

/-- A concrete conforming encoder used to evaluate closed runs: its session
state is a running byte sum standing in for the CRC, `encode` emits the
chunk unchanged (never expanding), and `finish` emits a fixed 4-byte
trailer.  It satisfies the spec's worst-case output bounds (an encoded block
no larger than the raw block, a trailer within the 4 KiB headroom). -/
def storedEnc : Slz Nat where
  init := fun _ _ => 0
  encode := fun s chunk _ => (s + chunk.sum, chunk)
  finish := fun s => (s, [s % 256, 0, 0, 0])
  crc32 := fun s => s

/-- Write oracle for runs whose writes all succeed (zero bytes reported
written; only the sign of the result matters to the driver). -/
def w0 : Nat → Int := fun _ => 0

/-- Write oracle for runs whose every attempted write fails. -/
def wFail : Nat → Int := fun _ => -1

/-! ### Buffer-sizing arithmetic -/

theorem block_size_closed (level : Nat) :
    block_size level =
      if 3 ≤ level then 1048576 else if level = 2 then 131072 else 32768 := by
  unfold block_size
  rcases Nat.lt_or_ge level 2 with h1 | h1
  · have h2 : ¬ (1 : Nat) < level := by omega
    have h3 : ¬ (2 : Nat) < level := by omega
    have h4 : ¬ (3 : Nat) ≤ level := by omega
    have h5 : level ≠ 2 := by omega
    simp [h2, h3, h4, h5]
  · rcases Nat.lt_or_ge level 3 with h2 | h2
    · have h3 : (1 : Nat) < level := by omega
      have h4 : ¬ (2 : Nat) < level := by omega
      have h5 : ¬ (3 : Nat) ≤ level := by omega
      have h6 : level = 2 := by omega
      simp [h3, h4, h5, h6]
    · have h3 : (1 : Nat) < level := by omega
      have h4 : (2 : Nat) < level := by omega
      have h5 : (3 : Nat) ≤ level := by omega
      simp [h3, h4, h5]

theorem block_size_pos (level : Nat) : 0 < block_size level := by
  rw [block_size_closed]
  split
  · omega
  · split <;> omega

theorem block_size_le_outbsize (level : Nat) :
    block_size level ≤ outbsize level := by
  unfold outbsize; omega

/-! ### Projections of the write and flush steps -/

@[simp] theorem doWrite_rest (c t : Bool) (w : Nat → Int) (a : Acc) :
    (doWrite c t w a).rest = a.rest := by
  unfold doWrite; split <;> rfl

@[simp] theorem doWrite_outbuf (c t : Bool) (w : Nat → Int) (a : Acc) :
    (doWrite c t w a).outbuf = a.outbuf := by
  unfold doWrite; split <;> rfl

@[simp] theorem doWrite_totin (c t : Bool) (w : Nat → Int) (a : Acc) :
    (doWrite c t w a).totin = a.totin := by
  unfold doWrite; split <;> rfl

@[simp] theorem doWrite_totout (c t : Bool) (w : Nat → Int) (a : Acc) :
    (doWrite c t w a).totout = a.totout := by
  unfold doWrite; split <;> rfl

@[simp] theorem doWrite_maxFill (c t : Bool) (w : Nat → Int) (a : Acc) :
    (doWrite c t w a).maxFill = a.maxFill := by
  unfold doWrite; split <;> rfl

@[simp] theorem doWrite_reqs (c t : Bool) (w : Nat → Int) (a : Acc) :
    (doWrite c t w a).reqs = a.reqs := by
  unfold doWrite; split <;> rfl

@[simp] theorem doWrite_test (c : Bool) (w : Nat → Int) (a : Acc) :
    doWrite c true w a = a := by
  unfold doWrite; simp

@[simp] theorem flushStep_rest (c t : Bool) (w : Nat → Int) (a : Acc) :
    (flushStep c t w a).rest = a.rest := by
  unfold flushStep; simp

@[simp] theorem flushStep_outbuf (c t : Bool) (w : Nat → Int) (a : Acc) :
    (flushStep c t w a).outbuf = [] := by
  unfold flushStep; simp

@[simp] theorem flushStep_totin (c t : Bool) (w : Nat → Int) (a : Acc) :
    (flushStep c t w a).totin = a.totin := by
  unfold flushStep; simp

@[simp] theorem flushStep_totout (c t : Bool) (w : Nat → Int) (a : Acc) :
    (flushStep c t w a).totout = a.totout + outblen a := by
  unfold flushStep outblen; simp

@[simp] theorem flushStep_maxFill (c t : Bool) (w : Nat → Int) (a : Acc) :
    (flushStep c t w a).maxFill = a.maxFill := by
  unfold flushStep; simp

@[simp] theorem flushStep_reqs (c t : Bool) (w : Nat → Int) (a : Acc) :
    (flushStep c t w a).reqs = a.reqs := by
  unfold flushStep; simp

@[simp] theorem flushStep_error (c t : Bool) (w : Nat → Int) (a : Acc) :
    (flushStep c t w a).error = (doWrite c t w a).error := by
  unfold flushStep; simp

@[simp] theorem flushStep_written (c t : Bool) (w : Nat → Int) (a : Acc) :
    (flushStep c t w a).written = (doWrite c t w a).written := by
  unfold flushStep; simp

@[simp] theorem flushStep_wcalls (c t : Bool) (w : Nat → Int) (a : Acc) :
    (flushStep c t w a).wcalls = (doWrite c t w a).wcalls := by
  unfold flushStep; simp

/-! ### Projections of one loop iteration -/

theorem chunkStep_fst {σ : Type} (enc : Slz σ) (level : Nat) (c t : Bool)
    (w : Nat → Int) (count : Nat) (more : Bool) (s : σ) (a : Acc) :
    (chunkStep enc level c t w count more s a).1 =
      (enc.encode s (a.rest.take count) more).1 := by
  simp only [chunkStep]

theorem chunkStep_rest {σ : Type} (enc : Slz σ) (level : Nat) (c t : Bool)
    (w : Nat → Int) (count : Nat) (more : Bool) (s : σ) (a : Acc) :
    (chunkStep enc level c t w count more s a).2.rest =
      a.rest.drop (a.rest.take count).length := by
  simp only [chunkStep, outblen]
  split <;> simp

theorem chunkStep_totin {σ : Type} (enc : Slz σ) (level : Nat) (c t : Bool)
    (w : Nat → Int) (count : Nat) (more : Bool) (s : σ) (a : Acc) :
    (chunkStep enc level c t w count more s a).2.totin =
      a.totin + (a.rest.take count).length := by
  simp only [chunkStep, outblen]
  split <;> simp

theorem chunkStep_reqs {σ : Type} (enc : Slz σ) (level : Nat) (c t : Bool)
    (w : Nat → Int) (count : Nat) (more : Bool) (s : σ) (a : Acc) :
    (chunkStep enc level c t w count more s a).2.reqs =
      a.reqs ++ [(a.rest.length, count, more)] := by
  simp only [chunkStep, outblen]
  split <;> simp

theorem chunkStep_maxFill {σ : Type} (enc : Slz σ) (level : Nat) (c t : Bool)
    (w : Nat → Int) (count : Nat) (more : Bool) (s : σ) (a : Acc) :
    (chunkStep enc level c t w count more s a).2.maxFill =
      max a.maxFill
        (a.outbuf.length + (enc.encode s (a.rest.take count) more).2.length) := by
  simp only [chunkStep, outblen]
  split <;> simp

theorem chunkStep_outbuf {σ : Type} (enc : Slz σ) (level : Nat) (c t : Bool)
    (w : Nat → Int) (count : Nat) (more : Bool) (s : σ) (a : Acc) :
    (chunkStep enc level c t w count more s a).2.outbuf =
      if (a.outbuf ++ (enc.encode s (a.rest.take count) more).2).length
            + block_size level > outbsize level
      then ([] : List Byte)
      else a.outbuf ++ (enc.encode s (a.rest.take count) more).2 := by
  simp only [chunkStep, outblen]
  split <;> simp

theorem chunkStep_totout {σ : Type} (enc : Slz σ) (level : Nat) (c t : Bool)
    (w : Nat → Int) (count : Nat) (more : Bool) (s : σ) (a : Acc) :
    (chunkStep enc level c t w count more s a).2.totout =
      if (a.outbuf ++ (enc.encode s (a.rest.take count) more).2).length
            + block_size level > outbsize level
      then a.totout + (a.outbuf ++ (enc.encode s (a.rest.take count) more).2).length
      else a.totout := by
  simp only [chunkStep, outblen]
  split <;> simp [outblen]

@[simp] theorem passFinish_fst {σ : Type} (enc : Slz σ) (c t : Bool)
    (w : Nat → Int) (s : σ) (a : Acc) :
    (passFinish enc c t w s a).1 = (enc.finish s).1 := rfl

@[simp] theorem passFinish_rest {σ : Type} (enc : Slz σ) (c t : Bool)
    (w : Nat → Int) (s : σ) (a : Acc) :
    (passFinish enc c t w s a).2.rest = a.rest := by
  simp [passFinish]

@[simp] theorem passFinish_outbuf {σ : Type} (enc : Slz σ) (c t : Bool)
    (w : Nat → Int) (s : σ) (a : Acc) :
    (passFinish enc c t w s a).2.outbuf = a.outbuf ++ (enc.finish s).2 := by
  simp [passFinish]

@[simp] theorem passFinish_totin {σ : Type} (enc : Slz σ) (c t : Bool)
    (w : Nat → Int) (s : σ) (a : Acc) :
    (passFinish enc c t w s a).2.totin = a.totin := by
  simp [passFinish]

@[simp] theorem passFinish_totout {σ : Type} (enc : Slz σ) (c t : Bool)
    (w : Nat → Int) (s : σ) (a : Acc) :
    (passFinish enc c t w s a).2.totout
      = a.totout + (a.outbuf ++ (enc.finish s).2).length := by
  simp [passFinish, outblen]

@[simp] theorem passFinish_maxFill {σ : Type} (enc : Slz σ) (c t : Bool)
    (w : Nat → Int) (s : σ) (a : Acc) :
    (passFinish enc c t w s a).2.maxFill
      = max a.maxFill (a.outbuf.length + (enc.finish s).2.length) := by
  simp [passFinish, outblen]

@[simp] theorem passFinish_reqs {σ : Type} (enc : Slz σ) (c t : Bool)
    (w : Nat → Int) (s : σ) (a : Acc) :
    (passFinish enc c t w s a).2.reqs = a.reqs := by
  simp [passFinish]

/-! ### The loop equation

`passLoop` is implemented with structural recursion on the number of
full-block iterations; the next theorem shows that it satisfies exactly the
unfolding of the source's do/while loop. -/

theorem passLoop_body {σ : Type} (enc : Slz σ) (level : Nat) (c t : Bool)
    (w : Nat → Int) (s : σ) (a : Acc) :
    passLoop enc level c t w s a =
      (let p := reqPlan a.rest.length (block_size level) (block_size level)
       let r := chunkStep enc level c t w p.1 p.2 s a
       if p.2 then passLoop enc level c t w r.1 r.2 else r) := by
  rcases Nat.lt_or_ge a.rest.length (block_size level) with hlt | hge
  · have hp : reqPlan a.rest.length (block_size level) (block_size level)
        = (a.rest.length, false) := by
      unfold reqPlan; simp [hlt]
    have hdiv : a.rest.length / block_size level = 0 := Nat.div_eq_of_lt hlt
    simp only [passLoop, hdiv, passLoopGo, hp]
    simp
  · have hp : reqPlan a.rest.length (block_size level) (block_size level)
        = (block_size level, true) := by
      unfold reqPlan; simp [Nat.not_lt.mpr hge]
    have hrest : (chunkStep enc level c t w (block_size level) true s a).2.rest
        = a.rest.drop (block_size level) := by
      rw [chunkStep_rest]
      congr 1
      simp [List.length_take, Nat.min_eq_left hge]
    have hlen : (chunkStep enc level c t w (block_size level) true s a).2.rest.length
        = a.rest.length - block_size level := by
      rw [hrest]; simp
    have hdiv : a.rest.length / block_size level
        = (a.rest.length - block_size level) / block_size level + 1 := by
      rw [Nat.div_eq_sub_div (block_size_pos level) hge]
    simp only [passLoop, hdiv, passLoopGo, hp]
    simp [hlen]

/-- Any property of the run state preserved by the loop body (instantiated
at the `(count, more)` pair the iteration actually computes) is preserved by
the whole do/while loop, for any fuel. -/
theorem passLoopGo_inv {σ : Type} (enc : Slz σ) (level : Nat) (c t : Bool)
    (w : Nat → Int) (P : Acc → Prop)
    (hstep : ∀ (s : σ) (a : Acc), P a →
      P (chunkStep enc level c t w
          (reqPlan a.rest.length (block_size level) (block_size level)).1
          (reqPlan a.rest.length (block_size level) (block_size level)).2
          s a).2) :
    ∀ (n : Nat) (s : σ) (a : Acc), P a →
      P (passLoopGo enc level c t w n s a).2 := by
  intro n
  induction n with
  | zero => intro s a h; exact hstep s a h
  | succ n ih =>
      intro s a h
      simp only [passLoopGo]
      split
      · exact ih _ _ (hstep s a h)
      · exact hstep s a h

/-- Specialisation of `passLoopGo_inv` to the loop's entry point. -/
theorem passLoop_inv {σ : Type} (enc : Slz σ) (level : Nat) (c t : Bool)
    (w : Nat → Int) (P : Acc → Prop)
    (hstep : ∀ (s : σ) (a : Acc), P a →
      P (chunkStep enc level c t w
          (reqPlan a.rest.length (block_size level) (block_size level)).1
          (reqPlan a.rest.length (block_size level) (block_size level)).2
          s a).2)
    (s : σ) (a : Acc) (h : P a) :
    P (passLoop enc level c t w s a).2 :=
  passLoopGo_inv enc level c t w P hstep _ s a h

/-- Any property of the run state preserved by one whole pass is preserved
by the outer `while (loops--)` loop. -/
theorem runLoops_inv {σ : Type} (enc : Slz σ) (level : Nat) (fmt : SlzFmt)
    (c t : Bool) (w : Nat → Int) (P : Acc → Prop)
    (hpass : ∀ a : Acc, P a → P (pass enc level fmt c t w a).2) :
    ∀ (n : Nat) (s? : Option σ) (a : Acc), P a →
      P (runLoops enc level fmt c t w n s? a).2 := by
  intro n
  induction n with
  | zero => intro s? a h; exact h
  | succ n ih =>
      intro s? a h
      exact ih _ _ (hpass a h)

/-! ### The accounting state does not depend on write results or test mode

Two runs over the same input that differ only in `console`, `test` and the
write oracle stay `CoreEq`-related and thread identical session states: the
write side can only influence `error`, `written` and `wcalls`. -/

theorem CoreEq.refl (a : Acc) : CoreEq a a :=
  ⟨rfl, rfl, rfl, rfl, rfl, rfl⟩

theorem doWrite_coreEq (c t : Bool) (w : Nat → Int) (a : Acc) :
    CoreEq (doWrite c t w a) a := by
  refine ⟨?_, ?_, ?_, ?_, ?_, ?_⟩ <;> simp

theorem chunkStep_coreEq {σ : Type} (enc : Slz σ) (level : Nat)
    (c t c' t' : Bool) (w w' : Nat → Int) (count : Nat) (more : Bool)
    (s : σ) (a b : Acc) (h : CoreEq a b) :
    (chunkStep enc level c t w count more s a).1
        = (chunkStep enc level c' t' w' count more s b).1 ∧
    CoreEq (chunkStep enc level c t w count more s a).2
      (chunkStep enc level c' t' w' count more s b).2 := by
  obtain ⟨h1, h2, h3, h4, h5, h6⟩ := h
  refine ⟨?_, ?_, ?_, ?_, ?_, ?_, ?_⟩
  · rw [chunkStep_fst, chunkStep_fst, h1]
  · rw [chunkStep_rest, chunkStep_rest, h1]
  · rw [chunkStep_outbuf, chunkStep_outbuf, h1, h2]
  · rw [chunkStep_totin, chunkStep_totin, h1, h3]
  · rw [chunkStep_totout, chunkStep_totout, h1, h2, h4]
  · rw [chunkStep_maxFill, chunkStep_maxFill, h1, h2, h5]
  · rw [chunkStep_reqs, chunkStep_reqs, h1, h6]

theorem passLoopGo_coreEq {σ : Type} (enc : Slz σ) (level : Nat)
    (c t c' t' : Bool) (w w' : Nat → Int) :
    ∀ (n : Nat) (s : σ) (a b : Acc), CoreEq a b →
      (passLoopGo enc level c t w n s a).1
          = (passLoopGo enc level c' t' w' n s b).1 ∧
      CoreEq (passLoopGo enc level c t w n s a).2
        (passLoopGo enc level c' t' w' n s b).2 := by
  intro n
  induction n with
  | zero =>
      intro s a b h
      have hr : a.rest = b.rest := h.1
      simp only [passLoopGo, hr]
      exact chunkStep_coreEq enc level c t c' t' w w' _ _ s a b h
  | succ n ih =>
      intro s a b h
      have hr : a.rest = b.rest := h.1
      have hstep := chunkStep_coreEq enc level c t c' t' w w'
        (reqPlan b.rest.length (block_size level) (block_size level)).1
        (reqPlan b.rest.length (block_size level) (block_size level)).2 s a b h
      simp only [passLoopGo, hr]
      split
      · rw [hstep.1]
        exact ih _ _ _ hstep.2
      · exact hstep

theorem passFinish_coreEq {σ : Type} (enc : Slz σ) (c t c' t' : Bool)
    (w w' : Nat → Int) (s : σ) (a b : Acc) (h : CoreEq a b) :
    (passFinish enc c t w s a).1 = (passFinish enc c' t' w' s b).1 ∧
    CoreEq (passFinish enc c t w s a).2 (passFinish enc c' t' w' s b).2 := by
  obtain ⟨h1, h2, h3, h4, h5, h6⟩ := h
  refine ⟨rfl, ?_, ?_, ?_, ?_, ?_, ?_⟩ <;>
    simp [h1, h2, h3, h4, h5, h6]

theorem pass_coreEq {σ : Type} (enc : Slz σ) (level : Nat) (fmt : SlzFmt)
    (c t c' t' : Bool) (w w' : Nat → Int) (a b : Acc) (h : CoreEq a b) :
    (pass enc level fmt c t w a).1 = (pass enc level fmt c' t' w' b).1 ∧
    CoreEq (pass enc level fmt c t w a).2 (pass enc level fmt c' t' w' b).2 := by
  obtain ⟨h1, h2, h3, h4, h5, h6⟩ := h
  have hloop := passLoopGo_coreEq enc level c t c' t' w w'
    ({ b with outbuf := ([] : List Byte) }.rest.length / block_size level)
    (enc.init (decide (level ≠ 0)) fmt)
    { a with outbuf := ([] : List Byte) } { b with outbuf := ([] : List Byte) }
    ⟨h1, rfl, h3, h4, h5, h6⟩
  simp only [pass, passLoop]
  rw [show ({ a with outbuf := ([] : List Byte) } : Acc).rest.length
      = ({ b with outbuf := ([] : List Byte) } : Acc).rest.length
      from by simp only [h1]]
  rw [hloop.1]
  exact passFinish_coreEq enc c t c' t' w w' _ _ _ hloop.2

theorem runLoops_coreEq {σ : Type} (enc : Slz σ) (level : Nat) (fmt : SlzFmt)
    (c t c' t' : Bool) (w w' : Nat → Int) :
    ∀ (n : Nat) (s? : Option σ) (a b : Acc), CoreEq a b →
      (runLoops enc level fmt c t w n s? a).1
          = (runLoops enc level fmt c' t' w' n s? b).1 ∧
      CoreEq (runLoops enc level fmt c t w n s? a).2
        (runLoops enc level fmt c' t' w' n s? b).2 := by
  intro n
  induction n with
  | zero => intro s? a b h; exact ⟨rfl, h⟩
  | succ n ih =>
      intro s? a b h
      have hp := pass_coreEq enc level fmt c t c' t' w w' a b h
      simp only [runLoops]
      rw [hp.1]
      exact ih _ _ _ hp.2

theorem run_coreEq {σ : Type} (enc : Slz σ) (level : Nat) (fmt : SlzFmt)
    (c t c' t' : Bool) (w w' : Nat → Int) (loops : Nat) (input : List Byte) :
    (run enc level fmt c t w loops input).1
        = (run enc level fmt c' t' w' loops input).1 ∧
    CoreEq (run enc level fmt c t w loops input).2
      (run enc level fmt c' t' w' loops input).2 :=
  runLoops_coreEq enc level fmt c t c' t' w w' loops none
    (Acc.init input) (Acc.init input) (CoreEq.refl _)

/-! ### The write-side invariant

Every step preserves `WInv w`: the sticky error flag records exactly "the
last performed write failed", and after the first failing write no further
write call is made. -/

theorem doWrite_winv (c t : Bool) (w : Nat → Int) (a : Acc)
    (h : WInv w a) : WInv w (doWrite c t w a) := by
  obtain ⟨hiff, hok⟩ := h
  unfold doWrite
  split
  · rename_i hg
    have herr : a.error = false := by
      rcases Bool.eq_false_or_eq_true a.error with he | he
      · simp [he] at hg
      · exact he
    have hnone : ∀ k, k < a.wcalls → 0 ≤ w k := by
      intro k hk
      by_contra hneg
      have : a.error = true := hiff.mpr ⟨k, hk, by omega⟩
      simp [this] at herr
    constructor
    · simp only [herr]
      constructor
      · intro hset
        rcases Nat.lt_or_ge (w a.wcalls).toNat 0 with _ | _
        · omega
        · by_cases hw : w a.wcalls < 0
          · exact ⟨a.wcalls, by omega, hw⟩
          · simp [hw] at hset
      · rintro ⟨k, hk, hneg⟩
        have hke : k = a.wcalls := by
          by_contra hne
          have : k < a.wcalls := by omega
          have := hnone k this
          omega
        subst hke
        simp [hneg]
    · intro k hk
      simp only at hk
      exact hnone k (by omega)
  · exact ⟨hiff, hok⟩

theorem winv_of_wside (w : Nat → Int) (a b : Acc) (h : WInv w a)
    (he : b.error = a.error) (hc : b.wcalls = a.wcalls) : WInv w b := by
  obtain ⟨hiff, hok⟩ := h
  constructor
  · rw [he, hc]; exact hiff
  · rw [hc]; exact hok

theorem flushStep_winv (c t : Bool) (w : Nat → Int) (a : Acc)
    (h : WInv w a) : WInv w (flushStep c t w a) :=
  winv_of_wside w (doWrite c t w a) _ (doWrite_winv c t w a h)
    (flushStep_error c t w a) (flushStep_wcalls c t w a)

theorem chunkStep_winv {σ : Type} (enc : Slz σ) (level : Nat) (c t : Bool)
    (w : Nat → Int) (count : Nat) (more : Bool) (s : σ) (a : Acc)
    (h : WInv w a) : WInv w (chunkStep enc level c t w count more s a).2 := by
  unfold chunkStep
  simp only
  split
  · apply flushStep_winv
    exact winv_of_wside w a _ h rfl rfl
  · exact winv_of_wside w a _ h rfl rfl

theorem passFinish_winv {σ : Type} (enc : Slz σ) (c t : Bool)
    (w : Nat → Int) (s : σ) (a : Acc) (h : WInv w a) :
    WInv w (passFinish enc c t w s a).2 := by
  unfold passFinish
  simp only
  apply doWrite_winv
  exact winv_of_wside w a _ h rfl rfl

theorem pass_winv {σ : Type} (enc : Slz σ) (level : Nat) (fmt : SlzFmt)
    (c t : Bool) (w : Nat → Int) (a : Acc) (h : WInv w a) :
    WInv w (pass enc level fmt c t w a).2 := by
  unfold pass
  simp only
  apply passFinish_winv
  apply passLoop_inv enc level c t w (WInv w)
  · intro s' a' h'
    exact chunkStep_winv enc level c t w _ _ s' a' h'
  · exact winv_of_wside w a _ h rfl rfl

theorem run_winv {σ : Type} (enc : Slz σ) (level : Nat) (fmt : SlzFmt)
    (c t : Bool) (w : Nat → Int) (loops : Nat) (input : List Byte) :
    WInv w (run enc level fmt c t w loops input).2 := by
  apply runLoops_inv enc level fmt c t w (WInv w)
  · intro a h
    exact pass_winv enc level fmt c t w a h
  · constructor
    · simp [Acc.init]
    · intro k hk
      simp [Acc.init] at hk

/-! ### Test mode performs no writes -/

theorem chunkStep_testFrozen {σ : Type} (enc : Slz σ) (level : Nat)
    (c : Bool) (w : Nat → Int) (count : Nat) (more : Bool) (s : σ) (a : Acc) :
    (chunkStep enc level c true w count more s a).2.error = a.error ∧
    (chunkStep enc level c true w count more s a).2.written = a.written ∧
    (chunkStep enc level c true w count more s a).2.wcalls = a.wcalls := by
  unfold chunkStep
  simp only
  split
  · simp [flushStep]
  · simp

theorem pass_testFrozen {σ : Type} (enc : Slz σ) (level : Nat) (fmt : SlzFmt)
    (c : Bool) (w : Nat → Int) (a : Acc) :
    (pass enc level fmt c true w a).2.error = a.error ∧
    (pass enc level fmt c true w a).2.written = a.written ∧
    (pass enc level fmt c true w a).2.wcalls = a.wcalls := by
  unfold pass
  simp only
  generalize enc.init (decide (level ≠ 0)) fmt = s0
  have hloop := passLoop_inv enc level c true w
    (fun x : Acc => x.error = a.error ∧ x.written = a.written ∧
      x.wcalls = a.wcalls)
    (by
      intro s' a' h'
      obtain ⟨e1, e2, e3⟩ := h'
      have := chunkStep_testFrozen enc level c w
        (reqPlan a'.rest.length (block_size level) (block_size level)).1
        (reqPlan a'.rest.length (block_size level) (block_size level)).2 s' a'
      exact ⟨this.1.trans e1, this.2.1.trans e2, this.2.2.trans e3⟩)
    s0 { a with outbuf := ([] : List Byte) } ⟨rfl, rfl, rfl⟩
  obtain ⟨e1, e2, e3⟩ := hloop
  unfold passFinish
  simp only
  simp [e1, e2, e3]

theorem run_testFrozen {σ : Type} (enc : Slz σ) (level : Nat) (fmt : SlzFmt)
    (c : Bool) (w : Nat → Int) (loops : Nat) (input : List Byte) :
    (run enc level fmt c true w loops input).2.error = false ∧
    (run enc level fmt c true w loops input).2.written = [] ∧
    (run enc level fmt c true w loops input).2.wcalls = 0 := by
  apply runLoops_inv enc level fmt c true w
    (fun x : Acc => x.error = false ∧ x.written = [] ∧ x.wcalls = 0)
  · intro a h
    obtain ⟨e1, e2, e3⟩ := h
    have := pass_testFrozen enc level fmt c w a
    exact ⟨this.1.trans e1, this.2.1.trans e2, this.2.2.trans e3⟩
  · exact ⟨rfl, rfl, rfl⟩

/-! ### The staging-buffer fill bound

Under the spec's worst-case output bounds for the external encoder (an
encoded block no larger than the raw input block, a finish trailer within
the fixed 4 KiB headroom), the fill level `outblen` never exceeds the
allocated staging-buffer capacity; the conservative flush check keeps the
fill at most `block_size` at every iteration boundary. -/

theorem reqPlan_fst_le (toread bs : Nat) : (reqPlan toread bs bs).1 ≤ bs := by
  unfold reqPlan; split <;> omega

theorem chunkStep_fill {σ : Type} (enc : Slz σ) (level : Nat) (c t : Bool)
    (w : Nat → Int) (count : Nat) (more : Bool) (s : σ) (a : Acc)
    (henc : ∀ (s' : σ) (chunk : List Byte) (m : Bool),
      chunk.length ≤ block_size level →
      (enc.encode s' chunk m).2.length ≤ block_size level)
    (hcnt : count ≤ block_size level)
    (h : a.outbuf.length ≤ block_size level ∧ a.maxFill ≤ outbufCap level) :
    (chunkStep enc level c t w count more s a).2.outbuf.length
        ≤ block_size level ∧
    (chunkStep enc level c t w count more s a).2.maxFill
        ≤ outbufCap level := by
  have hchunk : (a.rest.take count).length ≤ block_size level := by
    simp only [List.length_take]
    omega
  have hout := henc s (a.rest.take count) more hchunk
  have hob : outbsize level = 2 * block_size level := rfl
  constructor
  · rw [chunkStep_outbuf]
    split
    · simp
    · rename_i hcond
      simp only [List.length_append, gt_iff_lt, not_lt] at hcond ⊢
      omega
  · rw [chunkStep_maxFill]
    apply max_le h.2
    unfold outbufCap
    omega

theorem pass_fill {σ : Type} (enc : Slz σ) (level : Nat) (fmt : SlzFmt)
    (c t : Bool) (w : Nat → Int) (a : Acc)
    (henc : ∀ (s' : σ) (chunk : List Byte) (m : Bool),
      chunk.length ≤ block_size level →
      (enc.encode s' chunk m).2.length ≤ block_size level)
    (hfin : ∀ s' : σ, (enc.finish s').2.length ≤ 4096)
    (h : a.maxFill ≤ outbufCap level) :
    (pass enc level fmt c t w a).2.maxFill ≤ outbufCap level := by
  unfold pass
  simp only
  generalize enc.init (decide (level ≠ 0)) fmt = s0
  have hloop := passLoop_inv enc level c t w
    (fun x : Acc => x.outbuf.length ≤ block_size level ∧
      x.maxFill ≤ outbufCap level)
    (by
      intro s' a' h'
      exact chunkStep_fill enc level c t w
        (reqPlan a'.rest.length (block_size level) (block_size level)).1
        (reqPlan a'.rest.length (block_size level) (block_size level)).2
        s' a' henc (reqPlan_fst_le _ _) h')
    s0 { a with outbuf := ([] : List Byte) }
    (by
      constructor
      · simp
      · simpa using h)
  rw [passFinish_maxFill]
  apply max_le hloop.2
  have hf := hfin (passLoop enc level c t w s0
    { a with outbuf := ([] : List Byte) }).1
  have hb := hloop.1
  unfold outbufCap outbsize
  omega

theorem run_fill {σ : Type} (enc : Slz σ) (level : Nat) (fmt : SlzFmt)
    (c t : Bool) (w : Nat → Int) (loops : Nat) (input : List Byte)
    (henc : ∀ (s' : σ) (chunk : List Byte) (m : Bool),
      chunk.length ≤ block_size level →
      (enc.encode s' chunk m).2.length ≤ block_size level)
    (hfin : ∀ s' : σ, (enc.finish s').2.length ≤ 4096) :
    (run enc level fmt c t w loops input).2.maxFill ≤ outbufCap level := by
  apply runLoops_inv enc level fmt c t w
    (fun x : Acc => x.maxFill ≤ outbufCap level)
  · intro a h
    exact pass_fill enc level fmt c t w a henc hfin h
  · simp [Acc.init]

/-! ### Shape of the recorded read requests -/

theorem reqPlan_spec (toread bs : Nat) :
    (reqPlan toread bs bs).1 = min toread bs ∧
    ((reqPlan toread bs bs).2 = false ↔ toread < bs) := by
  unfold reqPlan
  split
  · rename_i hlt
    constructor
    · omega
    · simp [hlt]
  · rename_i hge
    constructor
    · omega
    · simp
      omega

theorem run_reqs {σ : Type} (enc : Slz σ) (level : Nat) (fmt : SlzFmt)
    (c t : Bool) (w : Nat → Int) (loops : Nat) (input : List Byte) :
    ∀ r ∈ (run enc level fmt c t w loops input).2.reqs,
      r.2.1 = min r.1 (block_size level) ∧
      (r.2.2 = false ↔ r.1 < block_size level) := by
  apply runLoops_inv enc level fmt c t w
    (fun x : Acc => ∀ r ∈ x.reqs,
      r.2.1 = min r.1 (block_size level) ∧
      (r.2.2 = false ↔ r.1 < block_size level))
  · intro a h
    unfold pass
    simp only
    generalize enc.init (decide (level ≠ 0)) fmt = s0
    have hloop := passLoop_inv enc level c t w
      (fun x : Acc => ∀ r ∈ x.reqs,
        r.2.1 = min r.1 (block_size level) ∧
        (r.2.2 = false ↔ r.1 < block_size level))
      (by
        intro s' a' h'
        rw [chunkStep_reqs]
        intro r hr
        rcases List.mem_append.mp hr with hold | hnew
        · exact h' r hold
        · have := List.mem_singleton.mp hnew
          subst this
          exact reqPlan_spec a'.rest.length (block_size level))
      s0 { a with outbuf := ([] : List Byte) }
      (by simpa using h)
    rw [passFinish_reqs]
    exact hloop
  · intro r hr
    simp [Acc.init] at hr

/-! ### The claims -/

/-- C1: the claim says each pass re-reads the same bytes so that `totin`
after N passes is N times the single-pass `totin`.  The code never resets
`toread` (nor rewinds the descriptor) between passes (`while (loops--)` at
zenc.c:233 re-enters the do/while with the leftover `toread = 0`), so on a
one-byte source the second pass reads nothing: `totin` after two passes is
1, not 2 × 1.  This contradicts the usage text "-l <loops> loop <loops>
times over the same file" (zenc.c:86), so the code, not the claim, is
wrong. -/
theorem loops_do_not_rewind_cursor :
    (run storedEnc 0 SlzFmt.gzip true false w0 2 [7]).2.totin ≠
      2 * (run storedEnc 0 SlzFmt.gzip true false w0 1 [7]).2.totin := by
  decide

/-- C2: for every effort level, input, pass count, console/test mode and
write oracle, the staging-buffer fill level `outblen` (whose high-water mark
the ghost field `maxFill` records at each of its growth points) never
exceeds the allocated staging-buffer capacity `outbsize + 4096`, provided
the external encoder meets the spec's worst-case output bounds: each
encoded block at most as large as the raw input block, and a finish trailer
within the fixed 4 KiB headroom.  The conservative flush check
`outblen + block_size > outbsize` (zenc.c:254) flushes early enough to
guarantee room for the next encoded block. -/
theorem staging_fill_bounded {σ : Type} (enc : Slz σ) (level : Nat)
    (fmt : SlzFmt) (console test : Bool) (w : Nat → Int) (loops : Nat)
    (input : List Byte)
    (henc : ∀ (s : σ) (chunk : List Byte) (m : Bool),
      chunk.length ≤ block_size level →
      (enc.encode s chunk m).2.length ≤ block_size level)
    (hfin : ∀ s : σ, (enc.finish s).2.length ≤ 4096) :
    (run enc level fmt console test w loops input).2.maxFill
      ≤ outbufCap level :=
  run_fill enc level fmt console test w loops input henc hfin

/-- C2 witness: the hypotheses hold for the concrete `storedEnc` encoder and
the bound holds on a concrete run at level 0. -/
theorem staging_fill_bounded_witness :
    (∀ (s : Nat) (chunk : List Byte) (m : Bool),
      chunk.length ≤ block_size 0 →
      (storedEnc.encode s chunk m).2.length ≤ block_size 0) ∧
    (∀ s : Nat, (storedEnc.finish s).2.length ≤ 4096) ∧
    (run storedEnc 0 SlzFmt.gzip true false w0 1 [5]).2.maxFill
      ≤ outbufCap 0 := by
  refine ⟨?_, ?_, ?_⟩
  · intro s chunk m h
    simpa [storedEnc] using h
  · intro s
    simp [storedEnc]
  · exact staging_fill_bounded storedEnc 0 SlzFmt.gzip true false w0 1 [5]
      (fun s chunk m h => by simpa [storedEnc] using h)
      (fun s => by simp [storedEnc])

/-- C3 counterexample: the claim says the final-chunk signal is given
exactly when remaining ≤ block size.  At `toread` exactly equal to the
block size the request computation (zenc.c:239-242, `reqPlan`) leaves
`more = 1`, i.e. the chunk is NOT marked final although remaining ≤ block
size, so the claimed equivalence fails at `toread = block_size` (level 0,
block size 32768). -/
theorem final_flag_at_exact_block_cex :
    ¬ (((reqPlan (block_size 0) (block_size 0) (block_size 0)).2 = false) ↔
        block_size 0 ≤ block_size 0) := by
  decide

/-- C3 amended: on every recorded read request of every run, the chunk
length equals min(remaining, block size), and the final-chunk signal
(`more = 0`) is given exactly when remaining is STRICTLY below the block
size; when remaining equals the block size, a full non-final chunk is sent
and a zero-length final chunk follows on the next iteration. -/
theorem chunk_request_shape {σ : Type} (enc : Slz σ) (level : Nat)
    (fmt : SlzFmt) (console test : Bool) (w : Nat → Int) (loops : Nat)
    (input : List Byte) :
    ∀ r ∈ (run enc level fmt console test w loops input).2.reqs,
      r.2.1 = min r.1 (block_size level) ∧
      (r.2.2 = false ↔ r.1 < block_size level) :=
  run_reqs enc level fmt console test w loops input

/-- C3 witness: the request recorded by a concrete one-byte run satisfies
the amended shape. -/
theorem chunk_request_shape_witness :
    ((1, 1, false) ∈
      (run storedEnc 0 SlzFmt.gzip true false w0 1 [5]).2.reqs) ∧
    (1 = min 1 (block_size 0) ∧ (false = false ↔ 1 < block_size 0)) := by
  constructor
  · decide
  · exact chunk_request_shape storedEnc 0 SlzFmt.gzip true false w0 1 [5]
      (1, 1, false) (by decide)

/-- C4: in a run whose writes can fail, the sticky error flag ends true as
soon as some performed write failed, the exit status is non-zero, every
write call before the last one succeeded (i.e. after the first failure no
further write is attempted — flushes are skipped), the same run with an
always-succeeding oracle ends with the flag clear, and `totin`/`totout` are
accumulated exactly as in that failure-free run (the loop keeps running to
completion). -/
theorem write_failure_sticky {σ : Type} (enc : Slz σ) (level : Nat)
    (fmt : SlzFmt) (test : Bool) (w wOK : Nat → Int) (loops : Nat)
    (input : List Byte)
    (hOK : ∀ k, 0 ≤ wOK k)
    (hfail : ∃ k, k < (run enc level fmt true test w loops input).2.wcalls ∧
      w k < 0) :
    (run enc level fmt true test w loops input).2.error = true ∧
    exitCode (run enc level fmt true test w loops input).2 ≠ 0 ∧
    (∀ k, k + 1 < (run enc level fmt true test w loops input).2.wcalls →
      0 ≤ w k) ∧
    (run enc level fmt true test wOK loops input).2.error = false ∧
    (run enc level fmt true test w loops input).2.totin
      = (run enc level fmt true test wOK loops input).2.totin ∧
    (run enc level fmt true test w loops input).2.totout
      = (run enc level fmt true test wOK loops input).2.totout := by
  have hw := run_winv enc level fmt true test w loops input
  have hwOK := run_winv enc level fmt true test wOK loops input
  have hcore := run_coreEq enc level fmt true test true test w wOK loops input
  have herr : (run enc level fmt true test w loops input).2.error = true :=
    hw.1.mpr hfail
  obtain ⟨e1, e2, e3, e4, e5, e6⟩ := hcore.2
  refine ⟨herr, ?_, hw.2, ?_, e3, e4⟩
  · simp [exitCode, herr]
  · cases he : (run enc level fmt true test wOK loops input).2.error
    · rfl
    · exfalso
      obtain ⟨k, _, hk⟩ := hwOK.1.mp he
      have := hOK k
      omega

/-- C4 witness: a concrete run whose single (final) flush write fails ends
with the error flag set, exit status 1, and the same totals as the same run
with succeeding writes. -/
theorem write_failure_sticky_witness :
    (∀ k, 0 ≤ w0 k) ∧
    (∃ k, k < (run storedEnc 0 SlzFmt.gzip true false wFail 1 [7]).2.wcalls ∧
      wFail k < 0) ∧
    ((run storedEnc 0 SlzFmt.gzip true false wFail 1 [7]).2.error = true ∧
     exitCode (run storedEnc 0 SlzFmt.gzip true false wFail 1 [7]).2 ≠ 0 ∧
     (∀ k, k + 1 <
        (run storedEnc 0 SlzFmt.gzip true false wFail 1 [7]).2.wcalls →
        0 ≤ wFail k) ∧
     (run storedEnc 0 SlzFmt.gzip true false w0 1 [7]).2.error = false ∧
     (run storedEnc 0 SlzFmt.gzip true false wFail 1 [7]).2.totin
       = (run storedEnc 0 SlzFmt.gzip true false w0 1 [7]).2.totin ∧
     (run storedEnc 0 SlzFmt.gzip true false wFail 1 [7]).2.totout
       = (run storedEnc 0 SlzFmt.gzip true false w0 1 [7]).2.totout) := by
  refine ⟨fun k => by simp [w0], ⟨0, by decide, by decide⟩, ?_⟩
  exact write_failure_sticky storedEnc 0 SlzFmt.gzip false wFail w0 1 [7]
    (fun k => by simp [w0]) ⟨0, by decide, by decide⟩

/-- C5: a test-mode run (`-t`) writes zero bytes to the destination yet
computes exactly the same `totin`, `totout` and final checksum as the same
run without `-t`, for every encoder, effort level, framing, pass count and
write oracle. -/
theorem test_mode_totals_agree {σ : Type} (enc : Slz σ) (level : Nat)
    (fmt : SlzFmt) (w w' : Nat → Int) (loops : Nat) (input : List Byte) :
    (run enc level fmt true true w loops input).2.written = [] ∧
    (run enc level fmt true true w loops input).2.totin
      = (run enc level fmt true false w' loops input).2.totin ∧
    (run enc level fmt true true w loops input).2.totout
      = (run enc level fmt true false w' loops input).2.totout ∧
    (run enc level fmt true true w loops input).1.map enc.crc32
      = (run enc level fmt true false w' loops input).1.map enc.crc32 := by
  have hfroz := run_testFrozen enc level fmt true w loops input
  have hcore := run_coreEq enc level fmt true true true false w w' loops input
  obtain ⟨e1, e2, e3, e4, e5, e6⟩ := hcore.2
  exact ⟨hfroz.2.1, e3, e4, by rw [hcore.1]⟩

/-- C6: buffer sizing is the claimed pure function of the effort level:
32 KiB for level ≤ 1, 128 KiB for level 2, 1 MiB for level ≥ 3, and the
staging buffer is allocated with capacity 2 × block size plus the fixed
4 KiB headroom. -/
theorem buffer_sizing_policy (level : Nat) :
    block_size level
      = (if 3 ≤ level then 1048576 else if level = 2 then 131072 else 32768) ∧
    outbsize level = 2 * block_size level ∧
    outbufCap level = 2 * block_size level + 4096 :=
  ⟨block_size_closed level, rfl, rfl⟩

/-- C7 counterexample: the claim says the report special-cases a zero total
input; but the source's ratio (zenc.c:272) is computed unconditionally, so
at `totin = 0` it differs from the guarded computation the claim describes
(which reports undefined). -/
theorem ratio_unguarded_cex :
    reportRatio 0 20 ≠ reportRatioGuarded 0 20 := by
  simp [reportRatio, reportRatioGuarded]

/-- C7 amended: the summary's ratio `totout * 100.0 / totin` is computed
unconditionally with no zero-divisor guard — for every `totin`, including
zero, the report carries a computed value and never a special-cased
"undefined" (the open question in the spec's design notes records the same
fact). -/
theorem ratio_never_undefined (totin totout : Nat) :
    reportRatio totin totout ≠ none := by
  simp [reportRatio]

/-- C8 counterexample: with a pass count of zero the session is never
initialized (`slz_init` is only reached inside the loop body, and
zenc.c:105 declares `strm` uninitialized), so the checksum read by the
summary line after the loop has no defined value — in particular it is not
the claimed initial zero. -/
theorem zero_loops_crc_cex :
    (run storedEnc 3 SlzFmt.gzip true false w0 0 [1, 2, 3]).1.map
        storedEnc.crc32 ≠ some 0 := by
  decide

/-- C8 amended: a pass count of zero performs no encode work and writes no
output: `totin` and `totout` stay at their initial zero, no read request and
no write call is made and nothing reaches the destination; the checksum,
however, is not a zero value but the never-initialized session state
(`none`). -/
theorem zero_loops_no_work {σ : Type} (enc : Slz σ) (level : Nat)
    (fmt : SlzFmt) (console test : Bool) (w : Nat → Int)
    (input : List Byte) :
    (run enc level fmt console test w 0 input).2.totin = 0 ∧
    (run enc level fmt console test w 0 input).2.totout = 0 ∧
    (run enc level fmt console test w 0 input).2.written = [] ∧
    (run enc level fmt console test w 0 input).2.reqs = [] ∧
    (run enc level fmt console test w 0 input).2.wcalls = 0 ∧
    (run enc level fmt console test w 0 input).1 = none :=
  ⟨rfl, rfl, rfl, rfl, rfl, rfl⟩

/-- C9: every negative `-b` value (not only the documented `-1` sentinel)
makes the driver treat the cap as absent: the resolved byte count is the
fstat size of the source, exactly as for `-1`, and the whole source is
consumed. -/
theorem negative_cap_whole_source (cap : Int) (st_size : Nat)
    (h : cap < 0) :
    resolveToread cap st_size = st_size ∧
    resolveToread cap st_size = resolveToread (-1) st_size ∧
    ∀ input : List Byte,
      input.take (resolveToread cap input.length) = input := by
  have h1 : ∀ n : Nat, resolveToread cap n = n := by
    intro n
    unfold resolveToread
    simp [h]
  refine ⟨h1 st_size, ?_, ?_⟩
  · rw [h1 st_size]
    unfold resolveToread
    norm_num
  · intro input
    rw [h1 input.length, List.take_length]

/-- C9 witness: the cap `-5` behaves like the `-1` sentinel. -/
theorem negative_cap_whole_source_witness :
    ((-5 : Int) < 0) ∧
    (resolveToread (-5) 42 = 42 ∧
     resolveToread (-5) 42 = resolveToread (-1) 42 ∧
     ∀ input : List Byte,
       input.take (resolveToread (-5) input.length) = input) :=
  ⟨by decide, negative_cap_whole_source (-5) 42 (by decide)⟩

/-- C10: a partial output write (a non-negative `write` result smaller than
the flushed length) is treated as complete success by the in-loop flush: the
sticky error flag stays clear, exactly one write call is made (no retry or
continuation write for the unwritten remainder, which is fewer bytes than
`outblen`), `totout` still advances by the full `outblen`; only a negative
`write` result sets the error flag. -/
theorem partial_write_counts_full (a : Acc) (w : Nat → Int)
    (herr : a.error = false) (h0 : 0 ≤ w a.wcalls)
    (hlt : w a.wcalls < (a.outbuf.length : Int)) :
    (flushStep true false w a).error = false ∧
    (flushStep true false w a).wcalls = a.wcalls + 1 ∧
    (flushStep true false w a).totout = a.totout + a.outbuf.length ∧
    (flushStep true false w a).written
      = a.written ++ a.outbuf.take (w a.wcalls).toNat ∧
    (a.outbuf.take (w a.wcalls).toNat).length < a.outbuf.length ∧
    (∀ w' : Nat → Int, w' a.wcalls < 0 →
      (flushStep true false w' a).error = true) := by
  have hg : (true && !false && !a.error) = true := by simp [herr]
  have hnneg : ¬ (w a.wcalls < 0) := by omega
  refine ⟨?_, ?_, ?_, ?_, ?_, ?_⟩
  · rw [flushStep_error]
    unfold doWrite
    rw [if_pos hg]
    simp [hnneg, herr]
  · rw [flushStep_wcalls]
    unfold doWrite
    rw [if_pos hg]
  · rw [flushStep_totout]
    rfl
  · rw [flushStep_written]
    unfold doWrite
    rw [if_pos hg]
  · simp only [List.length_take]
    omega
  · intro w' hneg
    rw [flushStep_error]
    unfold doWrite
    rw [if_pos hg]
    simp [hneg]

/-- C10 witness: a flush of three staged bytes whose write reports 1 byte
written counts all three into `totout`, leaves the error flag clear and
makes exactly one write call; the same flush with a failing write sets the
flag. -/
theorem partial_write_counts_full_witness :
    (({ Acc.init [] with outbuf := [1, 2, 3] } : Acc).error = false) ∧
    (0 ≤ w0 ({ Acc.init [] with outbuf := [1, 2, 3] } : Acc).wcalls) ∧
    (w0 ({ Acc.init [] with outbuf := [1, 2, 3] } : Acc).wcalls <
      (({ Acc.init [] with outbuf := [1, 2, 3] } : Acc).outbuf.length : Int)) ∧
    ((flushStep true false w0
        { Acc.init [] with outbuf := [1, 2, 3] }).error = false ∧
     (flushStep true false w0
        { Acc.init [] with outbuf := [1, 2, 3] }).wcalls
       = ({ Acc.init [] with outbuf := [1, 2, 3] } : Acc).wcalls + 1 ∧
     (flushStep true false w0
        { Acc.init [] with outbuf := [1, 2, 3] }).totout
       = ({ Acc.init [] with outbuf := [1, 2, 3] } : Acc).totout
           + ({ Acc.init [] with outbuf := [1, 2, 3] } : Acc).outbuf.length ∧
     (flushStep true false w0
        { Acc.init [] with outbuf := [1, 2, 3] }).written
       = ({ Acc.init [] with outbuf := [1, 2, 3] } : Acc).written
           ++ ({ Acc.init [] with outbuf := [1, 2, 3] } : Acc).outbuf.take
                (w0 ({ Acc.init [] with outbuf := [1, 2, 3] } : Acc).wcalls).toNat ∧
     (({ Acc.init [] with outbuf := [1, 2, 3] } : Acc).outbuf.take
        (w0 ({ Acc.init [] with outbuf := [1, 2, 3] } : Acc).wcalls).toNat).length
       < ({ Acc.init [] with outbuf := [1, 2, 3] } : Acc).outbuf.length ∧
     (∀ w' : Nat → Int,
        w' ({ Acc.init [] with outbuf := [1, 2, 3] } : Acc).wcalls < 0 →
        (flushStep true false w'
          { Acc.init [] with outbuf := [1, 2, 3] }).error = true)) :=
  ⟨rfl, by decide, by decide,
    partial_write_counts_full { Acc.init [] with outbuf := [1, 2, 3] } w0
      rfl (by decide) (by decide)⟩

end Zenc
